import Mathlib

/-!
Verification of the tracked-entity location service of the
Tracking-App-REST-API-Server repository, and of its token-verification
middleware.

The middleware is embedded from `src/routes/projectRoutes.js`
(the `verifyBimPlusToken` function).  The tracked-entity services
(`putTrackedUser`, `getTrackedUser`, `getTrackedUsers`, `putTrackedItem`,
`getTrackedItem`) are exercised by the test file shipped in the repository
but their implementation file (`services/tracked-entities-services.js`,
together with the mongoose models) is not part of the sources available
here; those operations are modelled from the specification, as indicated
on each definition.

Locations are 3D points; the service logic never computes with the
coordinates, it only stores and compares them, so coordinates are
modelled as integers.
-/

namespace TrackingApp

/-- An error value carrying an HTTP-like status code and a message,
mirroring the ad-hoc `Error` objects with a `statusCode` field thrown by
the JavaScript code. -/
structure SvcError where
  statusCode : Nat
  message : String
  deriving Repr, DecidableEq

/-- A 3D point `\x7bx, y, z\x7d`.  The core performs no arithmetic on
coordinates, so they are modelled as integers. -/
structure Location where
  x : Int
  y : Int
  z : Int
  deriving Repr, DecidableEq

/-- A superseded `\x7blocation, date\x7d` snapshot kept in an entity's
`historicalData`. -/
structure Snapshot where
  location : Location
  date : Nat
  deriving Repr, DecidableEq

/-- Modelled from the spec: a TrackedUser record, keyed by a foreign
reference to a User account, with current location, date of the most
recent update, and the ordered log of superseded snapshots
(`models/trackedEntities/tracked-user` is not among the sources). -/
structure TrackedUser where
  userId : String
  location : Location
  date : Nat
  historicalData : List Snapshot
  deriving Repr, DecidableEq

/-- Modelled from the spec: a TrackedItem record, keyed by an external
item code, carrying mutable `name` and `description` besides the common
tracked-entity shape (`models/trackedEntities/tracked-item` is not among
the sources).  History entries hold only `\x7blocation, date\x7d`: the
pre-update name and description are overwritten, they do not enter
history. -/
structure TrackedItem where
  itemCode : String
  name : String
  description : String
  location : Location
  date : Nat
  historicalData : List Snapshot
  deriving Repr, DecidableEq

/-- Modelled from the spec: the state visible to the services — the User
accounts known to the credential store, and the Entity Store's
TrackedUser and TrackedItem collections. -/
structure Store where
  users : List String
  trackedUsers : List TrackedUser
  trackedItems : List TrackedItem
  deriving Repr, DecidableEq

/-- Look up the TrackedUser record for a user id, if any. -/
def findTrackedUser (s : Store) (userId : String) : Option TrackedUser :=
  s.trackedUsers.find? (fun t => t.userId == userId)

/-- Look up the TrackedItem record for an item code, if any. -/
def findTrackedItem (s : Store) (itemCode : String) : Option TrackedItem :=
  s.trackedItems.find? (fun t => t.itemCode == itemCode)

/-- Replace the first TrackedUser record with the same userId, or append
the record at the end when none exists. -/
def upsertUserList : List TrackedUser → TrackedUser → List TrackedUser
  | [], r => [r]
  | t :: ts, r => if t.userId == r.userId then r :: ts else t :: upsertUserList ts r

/-- Replace the first TrackedItem record with the same itemCode, or
append the record at the end when none exists. -/
def upsertItemList : List TrackedItem → TrackedItem → List TrackedItem
  | [], r => [r]
  | t :: ts, r => if t.itemCode == r.itemCode then r :: ts else t :: upsertItemList ts r

/-- The Forbidden error: status code 403. -/
def forbiddenErr : SvcError := ⟨403, "Forbidden"⟩

/-- The NotFound error: status code 404. -/
def notFoundErr : SvcError := ⟨404, "Not Found"⟩

/-- Modelled from the spec: the rotation step of the Entity Store upsert
for users.  With no prior record, a fresh record with empty history is
built; with a prior record, its current `\x7blocation, date\x7d` is
pushed onto the end of `historicalData` and the new current values are
installed. -/
def rotateUser (old : Option TrackedUser) (userId : String) (loc : Location)
    (date : Nat) : TrackedUser :=
  match old with
  | none => ⟨userId, loc, date, []⟩
  | some o => ⟨userId, loc, date, o.historicalData ++ [⟨o.location, o.date⟩]⟩

/-- Modelled from the spec: the rotation step of the Entity Store upsert
for items.  Only the prior `\x7blocation, date\x7d` goes into history;
the prior name and description are overwritten. -/
def rotateItem (old : Option TrackedItem) (itemCode name description : String)
    (loc : Location) (date : Nat) : TrackedItem :=
  match old with
  | none => ⟨itemCode, name, description, loc, date, []⟩
  | some o => ⟨itemCode, name, description, loc, date,
      o.historicalData ++ [⟨o.location, o.date⟩]⟩

/-- Modelled from the spec: `putTrackedUser(userId, location)` from
`services/tracked-entities-services.js` (not among the sources).  Fails
with Forbidden (403) when no User account with that id exists, leaving
the store unchanged; otherwise upserts the TrackedUser record keyed by
`userId`, rotating the prior current state into history.  The `date` is
the timestamp the service stamps on the update. -/
def putTrackedUser (s : Store) (userId : String) (loc : Location) (date : Nat) :
    Except SvcError TrackedUser × Store :=
  if userId ∈ s.users then
    let r := rotateUser (findTrackedUser s userId) userId loc date
    (.ok r, { s with trackedUsers := upsertUserList s.trackedUsers r })
  else
    (.error forbiddenErr, s)

/-- Modelled from the spec: `getTrackedUser(userId)` from
`services/tracked-entities-services.js` (not among the sources).  Fails
with NotFound (404) when the User identity itself does not exist, with
Forbidden (403) when the User exists but has no TrackedUser record, and
otherwise returns the record. -/
def getTrackedUser (s : Store) (userId : String) : Except SvcError TrackedUser :=
  if userId ∈ s.users then
    match findTrackedUser s userId with
    | some r => .ok r
    | none => .error forbiddenErr
  else
    .error notFoundErr

/-- Modelled from the spec: `getTrackedUsers()` from
`services/tracked-entities-services.js` (not among the sources).  Fails
with NotFound (404) when zero TrackedUser records exist, otherwise
returns all of them. -/
def getTrackedUsers (s : Store) : Except SvcError (List TrackedUser) :=
  if s.trackedUsers.isEmpty then .error notFoundErr
  else .ok s.trackedUsers

/-- Modelled from the spec: `putTrackedItem(userId, itemCode, name,
description, location)` from `services/tracked-entities-services.js`
(not among the sources).  The `userId` only authorizes the caller (403
Forbidden when no such User exists, store unchanged); the item is keyed
solely by `itemCode`. -/
def putTrackedItem (s : Store) (userId itemCode name description : String)
    (loc : Location) (date : Nat) : Except SvcError TrackedItem × Store :=
  if userId ∈ s.users then
    let r := rotateItem (findTrackedItem s itemCode) itemCode name description loc date
    (.ok r, { s with trackedItems := upsertItemList s.trackedItems r })
  else
    (.error forbiddenErr, s)

/-- Modelled from the spec: `getTrackedItem(itemCode)` from
`services/tracked-entities-services.js` (not among the sources).  Fails
with Forbidden (403) when no TrackedItem with that code exists —
a single undifferentiated error — and otherwise returns the record. -/
def getTrackedItem (s : Store) (itemCode : String) : Except SvcError TrackedItem :=
  match findTrackedItem s itemCode with
  | some r => .ok r
  | none => .error forbiddenErr

/-! ### The token-verification middleware

Embedded from `src/routes/projectRoutes.js`, the `verifyBimPlusToken`
function.  `jwt.verify` is an external oracle: it either throws (an error
carrying a message) or returns the decoded payload; the JavaScript code
additionally guards against a falsy return value, which is modelled by
the oracle returning an `Option`. -/

/-- The decoded JWT payload: the middleware only reads its `_id`
field. -/
structure DecodedToken where
  _id : String
  deriving Repr, DecidableEq

/-- Outcome of the middleware: either an error is thrown, or the request
proceeds with `req.userId` set from the decoded token. -/
inductive MwOutcome where
  | thrown (e : SvcError)
  | next (userId : String)
  deriving Repr, DecidableEq

/-- Split a character list at every occurrence of `sep`, keeping empty
pieces, exactly as the JavaScript `String.prototype.split` does with a
one-character separator. -/
def splitChar (sep : Char) : List Char → List (List Char)
  | [] => [[]]
  | ch :: rest =>
    if ch = sep then [] :: splitChar sep rest
    else
      match splitChar sep rest with
      | [] => [[ch]]
      | part :: parts => (ch :: part) :: parts

/-- The JavaScript `s.split(" ")`. -/
def jsSplitOnSpace (s : String) : List String :=
  (splitChar ' ' s.data).map (fun cs => ⟨cs⟩)

/-- Embedded from `src/routes/projectRoutes.js`: the `verifyBimPlusToken`
middleware.  `verify` stands for `jwt.verify` with the secret applied: it
returns `Except.error` when the JavaScript function throws, and carries
an `Option` because the code also checks the decoded token for
falsiness.  `authHeader` is the `Authorization` header, absent or
present.  JavaScript `split(" ")[1]` yields `undefined` when there is no
second chunk and the falsiness test also catches the empty string, so
the token test is modelled on `getD 1 ""`. -/
def verifyBimPlusToken (verify : String → Except SvcError (Option DecodedToken))
    (authHeader : Option String) : MwOutcome :=
  match authHeader with
  | none => .thrown ⟨401, "Not Authenticated"⟩
  | some h =>
    let token := (jsSplitOnSpace h).getD 1 ""
    if token = "" then
      .thrown ⟨401, "Invalid Format Token"⟩
    else
      match verify token with
      | .error err => .thrown ⟨500, err.message⟩
      | .ok none => .thrown ⟨401, "Not Authenticated"⟩
      | .ok (some decoded) => .next decoded._id

/-! ### Demo data for concrete evaluations -/

/-- The user id used by the repository's test suite. -/
def userU1 : String := "5f1aaba0b8ee114a141cd0db"

/-- The first test location. -/
def locA : Location := ⟨0, 1, 2⟩

/-- The second test location. -/
def locB : Location := ⟨0, 2, 3⟩

/-- A store holding one User account and no tracked entities. -/
def store0 : Store := ⟨[userU1], [], []⟩

/-! ### Helper lemmas on the upsert list operation -/

theorem rotateUser_userId (old : Option TrackedUser) (u : String) (loc : Location)
    (d : Nat) : (rotateUser old u loc d).userId = u := by
  cases old <;> rfl

theorem rotateItem_itemCode (old : Option TrackedItem) (c n ds : String)
    (loc : Location) (d : Nat) : (rotateItem old c n ds loc d).itemCode = c := by
  cases old <;> rfl

theorem mem_upsertUserList {l : List TrackedUser} {r x : TrackedUser}
    (h : x ∈ upsertUserList l r) : x = r ∨ x ∈ l := by
  induction l with
  | nil => simpa [upsertUserList] using h
  | cons t ts ih =>
    simp only [upsertUserList] at h
    split at h
    · rcases List.mem_cons.mp h with h | h
      · exact Or.inl h
      · exact Or.inr (List.mem_cons_of_mem t h)
    · rcases List.mem_cons.mp h with h | h
      · exact Or.inr (h ▸ List.mem_cons_self t ts)
      · rcases ih h with h | h
        · exact Or.inl h
        · exact Or.inr (List.mem_cons_of_mem t h)

theorem mem_upsertItemList {l : List TrackedItem} {r x : TrackedItem}
    (h : x ∈ upsertItemList l r) : x = r ∨ x ∈ l := by
  induction l with
  | nil => simpa [upsertItemList] using h
  | cons t ts ih =>
    simp only [upsertItemList] at h
    split at h
    · rcases List.mem_cons.mp h with h | h
      · exact Or.inl h
      · exact Or.inr (List.mem_cons_of_mem t h)
    · rcases List.mem_cons.mp h with h | h
      · exact Or.inr (h ▸ List.mem_cons_self t ts)
      · rcases ih h with h | h
        · exact Or.inl h
        · exact Or.inr (List.mem_cons_of_mem t h)

theorem find?_upsertUserList (l : List TrackedUser) (r : TrackedUser) (u : String)
    (h : r.userId = u) :
    (upsertUserList l r).find? (fun t => t.userId == u) = some r := by
  induction l with
  | nil => simp [upsertUserList, List.find?, h]
  | cons t ts ih =>
    simp only [upsertUserList]
    split
    · simp [List.find?, h]
    · have ht : ¬ (t.userId == u) := by
        simp only [beq_iff_eq] at *
        intro hc; exact (by assumption : ¬ (t.userId = r.userId)) (hc.trans h.symm)
      simp [List.find?, ht, ih]

theorem find?_upsertItemList (l : List TrackedItem) (r : TrackedItem) (c : String)
    (h : r.itemCode = c) :
    (upsertItemList l r).find? (fun t => t.itemCode == c) = some r := by
  induction l with
  | nil => simp [upsertItemList, List.find?, h]
  | cons t ts ih =>
    simp only [upsertItemList]
    split
    · simp [List.find?, h]
    · have ht : ¬ (t.itemCode == c) := by
        simp only [beq_iff_eq] at *
        intro hc; exact (by assumption : ¬ (t.itemCode = r.itemCode)) (hc.trans h.symm)
      simp [List.find?, ht, ih]

theorem map_upsertUserList_of_none (l : List TrackedUser) (r : TrackedUser)
    (u : String) (hr : r.userId = u)
    (h : l.find? (fun t => t.userId == u) = none) :
    (upsertUserList l r).map (fun t => t.userId)
      = l.map (fun t => t.userId) ++ [u] := by
  induction l with
  | nil => simp [upsertUserList, hr]
  | cons t ts ih =>
    rw [List.find?_eq_none] at h
    have ht : ¬ (t.userId == u) = true := h t (List.mem_cons_self t ts)
    have hts : ts.find? (fun t => t.userId == u) = none :=
      List.find?_eq_none.mpr (fun x hx => h x (List.mem_cons_of_mem t hx))
    have htr : ¬ (t.userId == r.userId) := by
      simp only [beq_iff_eq] at *
      exact fun hc => ht (hc.trans hr)
    simp only [upsertUserList, htr, if_neg, if_false]
    simp [ih hts]

theorem map_upsertUserList_of_some (l : List TrackedUser) (r o : TrackedUser)
    (u : String) (hr : r.userId = u)
    (h : l.find? (fun t => t.userId == u) = some o) :
    (upsertUserList l r).map (fun t => t.userId)
      = l.map (fun t => t.userId) := by
  induction l with
  | nil => simp [List.find?] at h
  | cons t ts ih =>
    by_cases ht : (t.userId == u) = true
    · have htr : (t.userId == r.userId) = true := by
        simp only [beq_iff_eq] at *
        exact ht.trans hr.symm
      simp only [upsertUserList, htr, if_pos]
      simp only [beq_iff_eq] at htr
      simp [htr, hr]
    · have hts : ts.find? (fun t => t.userId == u) = some o := by
        rw [List.find?_cons_of_neg] at h
        · exact h
        · exact ht
      have htr : ¬ (t.userId == r.userId) = true := by
        simp only [beq_iff_eq] at *
        exact fun hc => ht (hc.trans hr)
      simp only [upsertUserList, htr, if_neg, if_false]
      simp [ih hts]

theorem map_upsertItemList_of_none (l : List TrackedItem) (r : TrackedItem)
    (c : String) (hr : r.itemCode = c)
    (h : l.find? (fun t => t.itemCode == c) = none) :
    (upsertItemList l r).map (fun t => t.itemCode)
      = l.map (fun t => t.itemCode) ++ [c] := by
  induction l with
  | nil => simp [upsertItemList, hr]
  | cons t ts ih =>
    rw [List.find?_eq_none] at h
    have ht : ¬ (t.itemCode == c) = true := h t (List.mem_cons_self t ts)
    have hts : ts.find? (fun t => t.itemCode == c) = none :=
      List.find?_eq_none.mpr (fun x hx => h x (List.mem_cons_of_mem t hx))
    have htr : ¬ (t.itemCode == r.itemCode) := by
      simp only [beq_iff_eq] at *
      exact fun hc => ht (hc.trans hr)
    simp only [upsertItemList, htr, if_neg, if_false]
    simp [ih hts]

theorem map_upsertItemList_of_some (l : List TrackedItem) (r o : TrackedItem)
    (c : String) (hr : r.itemCode = c)
    (h : l.find? (fun t => t.itemCode == c) = some o) :
    (upsertItemList l r).map (fun t => t.itemCode)
      = l.map (fun t => t.itemCode) := by
  induction l with
  | nil => simp [List.find?] at h
  | cons t ts ih =>
    by_cases ht : (t.itemCode == c) = true
    · have htr : (t.itemCode == r.itemCode) = true := by
        simp only [beq_iff_eq] at *
        exact ht.trans hr.symm
      simp only [upsertItemList, htr, if_pos]
      simp only [beq_iff_eq] at htr
      simp [htr, hr]
    · have hts : ts.find? (fun t => t.itemCode == c) = some o := by
        rw [List.find?_cons_of_neg] at h
        · exact h
        · exact ht
      have htr : ¬ (t.itemCode == r.itemCode) = true := by
        simp only [beq_iff_eq] at *
        exact fun hc => ht (hc.trans hr)
      simp only [upsertItemList, htr, if_neg, if_false]
      simp [ih hts]

/-! ### Helper lemmas on the service operations -/

theorem findTrackedUser_eq_none_iff (s : Store) (u : String) :
    findTrackedUser s u = none ↔ u ∉ s.trackedUsers.map (fun t => t.userId) := by
  simp [findTrackedUser, List.find?_eq_none, List.mem_map]

theorem findTrackedUser_some_mem {s : Store} {u : String} {r : TrackedUser}
    (h : findTrackedUser s u = some r) : r ∈ s.trackedUsers ∧ r.userId = u := by
  refine ⟨List.mem_of_find?_eq_some h, ?_⟩
  have := List.find?_some h
  simpa [beq_iff_eq] using this

theorem findTrackedItem_some_mem {s : Store} {c : String} {r : TrackedItem}
    (h : findTrackedItem s c = some r) : r ∈ s.trackedItems ∧ r.itemCode = c := by
  refine ⟨List.mem_of_find?_eq_some h, ?_⟩
  have := List.find?_some h
  simpa [beq_iff_eq] using this

theorem putTrackedUser_users (s : Store) (u : String) (loc : Location) (d : Nat) :
    (putTrackedUser s u loc d).2.users = s.users := by
  by_cases h : u ∈ s.users <;> simp [putTrackedUser, h]

theorem putTrackedUser_trackedItems (s : Store) (u : String) (loc : Location)
    (d : Nat) : (putTrackedUser s u loc d).2.trackedItems = s.trackedItems := by
  by_cases h : u ∈ s.users <;> simp [putTrackedUser, h]

theorem putTrackedItem_users (s : Store) (u c n ds : String) (loc : Location)
    (d : Nat) : (putTrackedItem s u c n ds loc d).2.users = s.users := by
  by_cases h : u ∈ s.users <;> simp [putTrackedItem, h]

theorem putTrackedItem_trackedUsers (s : Store) (u c n ds : String)
    (loc : Location) (d : Nat) :
    (putTrackedItem s u c n ds loc d).2.trackedUsers = s.trackedUsers := by
  by_cases h : u ∈ s.users <;> simp [putTrackedItem, h]

theorem putTrackedUser_of_mem (s : Store) (u : String) (loc : Location) (d : Nat)
    (hu : u ∈ s.users) :
    putTrackedUser s u loc d =
      (.ok (rotateUser (findTrackedUser s u) u loc d),
       { s with trackedUsers :=
           upsertUserList s.trackedUsers (rotateUser (findTrackedUser s u) u loc d) }) := by
  simp [putTrackedUser, hu]

theorem putTrackedItem_of_mem (s : Store) (u c n ds : String) (loc : Location)
    (d : Nat) (hu : u ∈ s.users) :
    putTrackedItem s u c n ds loc d =
      (.ok (rotateItem (findTrackedItem s c) c n ds loc d),
       { s with trackedItems :=
           upsertItemList s.trackedItems (rotateItem (findTrackedItem s c) c n ds loc d) }) := by
  simp [putTrackedItem, hu]

theorem findTrackedUser_after_put (s : Store) (u : String) (loc : Location)
    (d : Nat) (hu : u ∈ s.users) :
    findTrackedUser (putTrackedUser s u loc d).2 u
      = some (rotateUser (findTrackedUser s u) u loc d) := by
  rw [putTrackedUser_of_mem s u loc d hu]
  exact find?_upsertUserList _ _ _ (rotateUser_userId _ _ _ _)

theorem findTrackedItem_after_put (s : Store) (u c n ds : String) (loc : Location)
    (d : Nat) (hu : u ∈ s.users) :
    findTrackedItem (putTrackedItem s u c n ds loc d).2 c
      = some (rotateItem (findTrackedItem s c) c n ds loc d) := by
  rw [putTrackedItem_of_mem s u c n ds loc d hu]
  exact find?_upsertItemList _ _ _ (rotateItem_itemCode _ _ _ _ _ _)

theorem length_trackedUsers_after_put_fresh (s : Store) (u : String)
    (loc : Location) (d : Nat) (hu : u ∈ s.users)
    (hfresh : findTrackedUser s u = none) :
    (putTrackedUser s u loc d).2.trackedUsers.length = s.trackedUsers.length + 1 := by
  rw [putTrackedUser_of_mem s u loc d hu]
  have hmap := map_upsertUserList_of_none s.trackedUsers
    (rotateUser (findTrackedUser s u) u loc d) u (rotateUser_userId _ _ _ _) hfresh
  have : ((upsertUserList s.trackedUsers (rotateUser (findTrackedUser s u) u loc d)).map
      (fun t => t.userId)).length = (s.trackedUsers.map (fun t => t.userId)).length + 1 := by
    rw [hmap]; simp
  simpa using this

theorem length_trackedUsers_after_put_existing (s : Store) (u : String)
    (loc : Location) (d : Nat) (hu : u ∈ s.users) (o : TrackedUser)
    (hfound : findTrackedUser s u = some o) :
    (putTrackedUser s u loc d).2.trackedUsers.length = s.trackedUsers.length := by
  rw [putTrackedUser_of_mem s u loc d hu]
  have hmap := map_upsertUserList_of_some s.trackedUsers
    (rotateUser (findTrackedUser s u) u loc d) o u (rotateUser_userId _ _ _ _) hfound
  have : ((upsertUserList s.trackedUsers (rotateUser (findTrackedUser s u) u loc d)).map
      (fun t => t.userId)).length = (s.trackedUsers.map (fun t => t.userId)).length := by
    rw [hmap]
  simpa using this

theorem length_trackedItems_after_put_fresh (s : Store) (u c n ds : String)
    (loc : Location) (d : Nat) (hu : u ∈ s.users)
    (hfresh : findTrackedItem s c = none) :
    (putTrackedItem s u c n ds loc d).2.trackedItems.length
      = s.trackedItems.length + 1 := by
  rw [putTrackedItem_of_mem s u c n ds loc d hu]
  have hmap := map_upsertItemList_of_none s.trackedItems
    (rotateItem (findTrackedItem s c) c n ds loc d) c
    (rotateItem_itemCode _ _ _ _ _ _) hfresh
  have : ((upsertItemList s.trackedItems (rotateItem (findTrackedItem s c) c n ds loc d)).map
      (fun t => t.itemCode)).length
        = (s.trackedItems.map (fun t => t.itemCode)).length + 1 := by
    rw [hmap]; simp
  simpa using this

theorem length_trackedItems_after_put_existing (s : Store) (u c n ds : String)
    (loc : Location) (d : Nat) (hu : u ∈ s.users) (o : TrackedItem)
    (hfound : findTrackedItem s c = some o) :
    (putTrackedItem s u c n ds loc d).2.trackedItems.length
      = s.trackedItems.length := by
  rw [putTrackedItem_of_mem s u c n ds loc d hu]
  have hmap := map_upsertItemList_of_some s.trackedItems
    (rotateItem (findTrackedItem s c) c n ds loc d) o c
    (rotateItem_itemCode _ _ _ _ _ _) hfound
  have : ((upsertItemList s.trackedItems (rotateItem (findTrackedItem s c) c n ds loc d)).map
      (fun t => t.itemCode)).length = (s.trackedItems.map (fun t => t.itemCode)).length := by
    rw [hmap]
  simpa using this

/-- A second User account, mirroring the dummy user of the test suite. -/
def userU2 : String := "5f1aaba0b8ee114a141cd0dc"

/-- A TrackedUser record used in concrete evaluations. -/
def demoTracked : TrackedUser := ⟨userU1, locA, 0, []⟩

/-- A store with two User accounts, one of them tracked. -/
def store1 : Store := ⟨[userU1, userU2], [demoTracked], []⟩

/-! ### Claim theorems -/

/-- C1: for an identity whose owning User exists, a first put creates a
record (record count one greater than before) with the given location as
current and empty historicalData; a second put leaves the count
unchanged, installs the new location as current, and leaves
historicalData with exactly one entry equal to the first location. -/
theorem putTrackedUser_create_then_update (s : Store) (u : String)
    (a b : Location) (d1 d2 : Nat) (hu : u ∈ s.users)
    (hfresh : findTrackedUser s u = none) :
    ∃ r1 r2,
      (putTrackedUser s u a d1).1 = .ok r1 ∧
      (putTrackedUser s u a d1).2.trackedUsers.length
        = s.trackedUsers.length + 1 ∧
      r1.location = a ∧ r1.historicalData = [] ∧
      (putTrackedUser (putTrackedUser s u a d1).2 u b d2).1 = .ok r2 ∧
      (putTrackedUser (putTrackedUser s u a d1).2 u b d2).2.trackedUsers.length
        = (putTrackedUser s u a d1).2.trackedUsers.length ∧
      r2.location = b ∧ r2.historicalData = [⟨a, d1⟩] := by
  have hu1 : u ∈ ((putTrackedUser s u a d1).2).users := by
    rw [putTrackedUser_users]; exact hu
  have hfind1 := findTrackedUser_after_put s u a d1 hu
  rw [hfresh] at hfind1
  refine ⟨rotateUser none u a d1,
    rotateUser (some (rotateUser none u a d1)) u b d2,
    ?_, ?_, rfl, rfl, ?_, ?_, rfl, rfl⟩
  · rw [putTrackedUser_of_mem s u a d1 hu, hfresh]
  · exact length_trackedUsers_after_put_fresh s u a d1 hu hfresh
  · rw [putTrackedUser_of_mem _ u b d2 hu1, hfind1]
  · exact length_trackedUsers_after_put_existing _ u b d2 hu1 _ hfind1

/-- Witness for C1, at the concrete scenario of the test suite. -/
theorem putTrackedUser_create_then_update_witness :
    ∃ r1 r2,
      (putTrackedUser store0 userU1 locA 0).1 = .ok r1 ∧
      (putTrackedUser store0 userU1 locA 0).2.trackedUsers.length
        = store0.trackedUsers.length + 1 ∧
      r1.location = locA ∧ r1.historicalData = [] ∧
      (putTrackedUser (putTrackedUser store0 userU1 locA 0).2 userU1 locB 1).1
        = .ok r2 ∧
      (putTrackedUser (putTrackedUser store0 userU1 locA 0).2 userU1 locB 1).2.trackedUsers.length
        = (putTrackedUser store0 userU1 locA 0).2.trackedUsers.length ∧
      r2.location = locB ∧ r2.historicalData = [⟨locA, 0⟩] :=
  putTrackedUser_create_then_update store0 userU1 locA locB 0 1
    (by simp [store0]) rfl

/-- C2: for a userId with no existing User account, both putTrackedUser
and putTrackedItem fail with statusCode 403 and the store is left
unchanged, so no record is created. -/
theorem put_unknown_user_forbidden (s : Store) (u c n ds : String)
    (loc : Location) (d : Nat) (hu : u ∉ s.users) :
    putTrackedUser s u loc d = (.error forbiddenErr, s) ∧
    putTrackedItem s u c n ds loc d = (.error forbiddenErr, s) ∧
    forbiddenErr.statusCode = 403 := by
  refine ⟨?_, ?_, rfl⟩ <;> simp [putTrackedUser, putTrackedItem, hu]

/-- Witness for C2, at the unknown user id of the test suite. -/
theorem put_unknown_user_forbidden_witness :
    putTrackedUser store0 "5f1aaba0b8ee114a141cd0da" locA 0
      = (.error forbiddenErr, store0) ∧
    putTrackedItem store0 "5f1aaba0b8ee114a141cd0da" "12345678" "TestItem"
        "itemDescription" locA 0
      = (.error forbiddenErr, store0) ∧
    forbiddenErr.statusCode = 403 :=
  put_unknown_user_forbidden store0 "5f1aaba0b8ee114a141cd0da" "12345678"
    "TestItem" "itemDescription" locA 0 (by decide)

/-- C3: getTrackedUser fails with 404 when the User account does not
exist, fails with 403 when the User exists but has no TrackedUser
record, and otherwise returns that record. -/
theorem getTrackedUser_trichotomy (s : Store) (u : String) :
    (u ∉ s.users → getTrackedUser s u = .error notFoundErr) ∧
    (u ∈ s.users → findTrackedUser s u = none →
      getTrackedUser s u = .error forbiddenErr) ∧
    (∀ r, u ∈ s.users → findTrackedUser s u = some r →
      getTrackedUser s u = .ok r) ∧
    notFoundErr.statusCode = 404 ∧ forbiddenErr.statusCode = 403 := by
  refine ⟨fun h => by simp [getTrackedUser, h],
    fun h hf => by simp [getTrackedUser, h, hf],
    fun r h hf => by simp [getTrackedUser, h, hf], rfl, rfl⟩

/-- Witness for C3, showing all three outcomes on a concrete store. -/
theorem getTrackedUser_trichotomy_witness :
    getTrackedUser store1 "unknown" = .error notFoundErr ∧
    getTrackedUser store1 userU2 = .error forbiddenErr ∧
    getTrackedUser store1 userU1 = .ok demoTracked :=
  ⟨(getTrackedUser_trichotomy store1 "unknown").1 (by decide),
   (getTrackedUser_trichotomy store1 userU2).2.1 (by decide) (by decide),
   (getTrackedUser_trichotomy store1 userU1).2.2.1 demoTracked (by decide)
     (by decide)⟩

/-- C5: getTrackedItem fails with a single undifferentiated 403 error
when no TrackedItem with the code exists — every error it can produce
has statusCode 403, there is no 404 tier — and otherwise returns the
record. -/
theorem getTrackedItem_forbidden_or_found (s : Store) (c : String) :
    (findTrackedItem s c = none → getTrackedItem s c = .error forbiddenErr) ∧
    (∀ r, findTrackedItem s c = some r → getTrackedItem s c = .ok r) ∧
    (∀ e, getTrackedItem s c = .error e → e.statusCode = 403) ∧
    forbiddenErr.statusCode = 403 := by
  refine ⟨fun h => by simp [getTrackedItem, h],
    fun r h => by simp [getTrackedItem, h], fun e he => ?_, rfl⟩
  unfold getTrackedItem at he
  cases hf : findTrackedItem s c with
  | none => rw [hf] at he; cases he; rfl
  | some r => rw [hf] at he; cases he

/-- Witness for C5, at the unregistered code scenario of the test
suite. -/
theorem getTrackedItem_forbidden_or_found_witness :
    getTrackedItem store1 "unregistered-code" = .error forbiddenErr :=
  (getTrackedItem_forbidden_or_found store1 "unregistered-code").1 rfl

/-- C6: a TrackedItem is keyed solely by its itemCode — the authorizing
userId may differ between the two calls; the second put with the same
code updates in place (count unchanged), installs the new name and
description, and pushes only the prior location and date onto
historicalData. -/
theorem putTrackedItem_create_then_update (s : Store)
    (ua ub c n1 n2 ds1 ds2 : String) (a b : Location) (d1 d2 : Nat)
    (h1 : ua ∈ s.users) (h2 : ub ∈ s.users)
    (hfresh : findTrackedItem s c = none) :
    ∃ r1 r2,
      (putTrackedItem s ua c n1 ds1 a d1).1 = .ok r1 ∧
      (putTrackedItem s ua c n1 ds1 a d1).2.trackedItems.length
        = s.trackedItems.length + 1 ∧
      r1.name = n1 ∧ r1.description = ds1 ∧ r1.location = a ∧
      r1.historicalData = [] ∧
      (putTrackedItem (putTrackedItem s ua c n1 ds1 a d1).2 ub c n2 ds2 b d2).1
        = .ok r2 ∧
      (putTrackedItem (putTrackedItem s ua c n1 ds1 a d1).2 ub c n2 ds2 b d2).2.trackedItems.length
        = (putTrackedItem s ua c n1 ds1 a d1).2.trackedItems.length ∧
      r2.name = n2 ∧ r2.description = ds2 ∧ r2.location = b ∧
      r2.historicalData = [⟨a, d1⟩] := by
  have hu1 : ub ∈ ((putTrackedItem s ua c n1 ds1 a d1).2).users := by
    rw [putTrackedItem_users]; exact h2
  have hfind1 := findTrackedItem_after_put s ua c n1 ds1 a d1 h1
  rw [hfresh] at hfind1
  refine ⟨rotateItem none c n1 ds1 a d1,
    rotateItem (some (rotateItem none c n1 ds1 a d1)) c n2 ds2 b d2,
    ?_, ?_, rfl, rfl, rfl, rfl, ?_, ?_, rfl, rfl, rfl, rfl⟩
  · rw [putTrackedItem_of_mem s ua c n1 ds1 a d1 h1, hfresh]
  · exact length_trackedItems_after_put_fresh s ua c n1 ds1 a d1 h1 hfresh
  · rw [putTrackedItem_of_mem _ ub c n2 ds2 b d2 hu1, hfind1]
  · exact length_trackedItems_after_put_existing _ ub c n2 ds2 b d2 hu1 _ hfind1

/-- Witness for C6, at the item scenario of the test suite, with the two
calls authorized by two different users. -/
theorem putTrackedItem_create_then_update_witness :
    ∃ r1 r2,
      (putTrackedItem store1 userU1 "12345678" "TestItem" "itemDescription"
          locA 0).1 = .ok r1 ∧
      (putTrackedItem store1 userU1 "12345678" "TestItem" "itemDescription"
          locA 0).2.trackedItems.length = store1.trackedItems.length + 1 ∧
      r1.name = "TestItem" ∧ r1.description = "itemDescription" ∧
      r1.location = locA ∧ r1.historicalData = [] ∧
      (putTrackedItem (putTrackedItem store1 userU1 "12345678" "TestItem"
          "itemDescription" locA 0).2 userU2 "12345678" "TestItemNewName"
          "itemDescriptionNew" locB 1).1 = .ok r2 ∧
      (putTrackedItem (putTrackedItem store1 userU1 "12345678" "TestItem"
          "itemDescription" locA 0).2 userU2 "12345678" "TestItemNewName"
          "itemDescriptionNew" locB 1).2.trackedItems.length
        = (putTrackedItem store1 userU1 "12345678" "TestItem"
            "itemDescription" locA 0).2.trackedItems.length ∧
      r2.name = "TestItemNewName" ∧ r2.description = "itemDescriptionNew" ∧
      r2.location = locB ∧ r2.historicalData = [⟨locA, 0⟩] :=
  putTrackedItem_create_then_update store1 userU1 userU2 "12345678"
    "TestItem" "TestItemNewName" "itemDescription" "itemDescriptionNew"
    locA locB 0 1 (by decide) (by decide) rfl

/-! ### Tracking a sequence of identities (for the listing claim) -/

/-- Successively track every identity in `ids`, each with the same
location and date. -/
def putAllUsers (s : Store) (ids : List String) (loc : Location) (d : Nat) :
    Store :=
  match ids with
  | [] => s
  | u :: rest => putAllUsers (putTrackedUser s u loc d).2 rest loc d

theorem putAllUsers_users (ids : List String) (loc : Location) (d : Nat) :
    ∀ s : Store, (putAllUsers s ids loc d).users = s.users := by
  induction ids with
  | nil => intro s; rfl
  | cons u rest ih =>
    intro s
    rw [putAllUsers, ih, putTrackedUser_users]

theorem map_trackedUsers_after_put_fresh (s : Store) (u : String)
    (loc : Location) (d : Nat) (hu : u ∈ s.users)
    (hfresh : findTrackedUser s u = none) :
    (putTrackedUser s u loc d).2.trackedUsers.map (fun t => t.userId)
      = s.trackedUsers.map (fun t => t.userId) ++ [u] := by
  rw [putTrackedUser_of_mem s u loc d hu]
  exact map_upsertUserList_of_none _ _ _ (rotateUser_userId _ _ _ _) hfresh

theorem putAllUsers_ids (ids : List String) (loc : Location) (d : Nat) :
    ∀ s : Store, ids.Nodup → (∀ u ∈ ids, u ∈ s.users) →
      (∀ u ∈ ids, findTrackedUser s u = none) →
      (putAllUsers s ids loc d).trackedUsers.map (fun t => t.userId)
        = s.trackedUsers.map (fun t => t.userId) ++ ids := by
  induction ids with
  | nil => intro s _ _ _; simp [putAllUsers]
  | cons u rest ih =>
    intro s hnd hin hfresh
    have hu : u ∈ s.users := hin u (List.mem_cons_self u rest)
    have hfu : findTrackedUser s u = none := hfresh u (List.mem_cons_self u rest)
    have hmap := map_trackedUsers_after_put_fresh s u loc d hu hfu
    have hrest : ∀ v ∈ rest, v ∈ ((putTrackedUser s u loc d).2).users := by
      intro v hv; rw [putTrackedUser_users]
      exact hin v (List.mem_cons_of_mem u hv)
    have hfreshrest :
        ∀ v ∈ rest, findTrackedUser (putTrackedUser s u loc d).2 v = none := by
      intro v hv
      rw [findTrackedUser_eq_none_iff, hmap]
      have h1 : v ∉ s.trackedUsers.map (fun t => t.userId) :=
        (findTrackedUser_eq_none_iff s v).mp (hfresh v (List.mem_cons_of_mem u hv))
      have h2 : v ≠ u := by
        intro hvu; exact (List.nodup_cons.mp hnd).1 (hvu ▸ hv)
      simp [h1, h2]
    rw [putAllUsers, ih _ (List.nodup_cons.mp hnd).2 hrest hfreshrest, hmap]
    simp

/-! ### Repeating a put on one identity (for the rotation claim) -/

/-- Apply putTrackedUser to the same identity `k` times with the same
location and date. -/
def putUserIter (s : Store) (u : String) (loc : Location) (d : Nat) :
    Nat → Store
  | 0 => s
  | k+1 => putUserIter (putTrackedUser s u loc d).2 u loc d k

theorem putUserIter_users (u : String) (loc : Location) (d : Nat) :
    ∀ (k : Nat) (s : Store), (putUserIter s u loc d k).users = s.users := by
  intro k
  induction k with
  | zero => intro s; rfl
  | succ k ih =>
    intro s
    rw [putUserIter, ih, putTrackedUser_users]

theorem putUserIter_find (u : String) (loc : Location) (d : Nat) :
    ∀ (k : Nat) (s : Store) (r0 : TrackedUser), u ∈ s.users →
      findTrackedUser s u = some r0 →
      ∃ r, findTrackedUser (putUserIter s u loc d k) u = some r ∧
        r.historicalData.length = r0.historicalData.length + k ∧
        (k = 0 → r = r0) ∧ (0 < k → r.location = loc) := by
  intro k
  induction k with
  | zero =>
    intro s r0 hu hfind
    exact ⟨r0, hfind, by simp, fun _ => rfl, by simp⟩
  | succ k ih =>
    intro s r0 hu hfind
    have hfind1 := findTrackedUser_after_put s u loc d hu
    rw [hfind] at hfind1
    have hu1 : u ∈ ((putTrackedUser s u loc d).2).users := by
      rw [putTrackedUser_users]; exact hu
    obtain ⟨r, hr, hlen, hzero, hpos⟩ :=
      ih (putTrackedUser s u loc d).2 (rotateUser (some r0) u loc d) hu1 hfind1
    refine ⟨r, by rw [putUserIter]; exact hr, ?_, ?_, ?_⟩
    · rw [hlen]; simp [rotateUser]; omega
    · intro h; exact absurd h (Nat.succ_ne_zero k)
    · intro _
      cases Nat.eq_zero_or_pos k with
      | inl h0 =>
        subst h0
        rw [hzero rfl]
        rfl
      | inr hp => exact hpos hp

/-- Apply putTrackedItem to the same item code `k` times with the same
authorizing user, name, description, location and date. -/
def putItemIter (s : Store) (u c n ds : String) (loc : Location) (d : Nat) :
    Nat → Store
  | 0 => s
  | k+1 => putItemIter (putTrackedItem s u c n ds loc d).2 u c n ds loc d k

theorem putItemIter_users (u c n ds : String) (loc : Location) (d : Nat) :
    ∀ (k : Nat) (s : Store), (putItemIter s u c n ds loc d k).users = s.users := by
  intro k
  induction k with
  | zero => intro s; rfl
  | succ k ih =>
    intro s
    rw [putItemIter, ih, putTrackedItem_users]

theorem putItemIter_find (u c n ds : String) (loc : Location) (d : Nat) :
    ∀ (k : Nat) (s : Store) (r0 : TrackedItem), u ∈ s.users →
      findTrackedItem s c = some r0 →
      ∃ r, findTrackedItem (putItemIter s u c n ds loc d k) c = some r ∧
        r.historicalData.length = r0.historicalData.length + k ∧
        (k = 0 → r = r0) ∧ (0 < k → r.location = loc) := by
  intro k
  induction k with
  | zero =>
    intro s r0 hu hfind
    exact ⟨r0, hfind, by simp, fun _ => rfl, by simp⟩
  | succ k ih =>
    intro s r0 hu hfind
    have hfind1 := findTrackedItem_after_put s u c n ds loc d hu
    rw [hfind] at hfind1
    have hu1 : u ∈ ((putTrackedItem s u c n ds loc d).2).users := by
      rw [putTrackedItem_users]; exact hu
    obtain ⟨r, hr, hlen, hzero, hpos⟩ :=
      ih (putTrackedItem s u c n ds loc d).2
        (rotateItem (some r0) c n ds loc d) hu1 hfind1
    refine ⟨r, by rw [putItemIter]; exact hr, ?_, ?_, ?_⟩
    · rw [hlen]; simp [rotateItem]; omega
    · intro h; exact absurd h (Nat.succ_ne_zero k)
    · intro _
      cases Nat.eq_zero_or_pos k with
      | inl h0 =>
        subst h0
        rw [hzero rfl]
        rfl
      | inr hp => exact hpos hp

/-! ### Sequences of operations with advancing timestamps
(for the history invariant claim) -/

/-- The operations a client can issue against the service. -/
inductive Op where
  | putUser (userId : String) (loc : Location)
  | putItem (userId itemCode name description : String) (loc : Location)
  | getUser (userId : String)
  | getUsers
  | getItem (itemCode : String)
  deriving Repr, DecidableEq

/-- Run one operation; reads leave the store unchanged, writes stamp the
current clock value as the date. -/
def runOp (s : Store) (clock : Nat) : Op → Store
  | .putUser u loc => (putTrackedUser s u loc clock).2
  | .putItem u c n ds loc => (putTrackedItem s u c n ds loc clock).2
  | .getUser _ => s
  | .getUsers => s
  | .getItem _ => s

/-- Run a sequence of operations; the clock advances strictly between
operations, as the service-stamped timestamps do. -/
def runOps (s : Store) (clock : Nat) : List Op → Store
  | [] => s
  | op :: rest => runOps (runOp s clock op) (clock + 1) rest

/-- Date discipline of one TrackedUser record relative to the clock: the
current date is in the past, history dates strictly increase (oldest
first), and every history snapshot predates the current date. -/
def userDatesInv (clock : Nat) (r : TrackedUser) : Prop :=
  r.date < clock ∧
  (r.historicalData.map (fun sn => sn.date)).Pairwise (· < ·) ∧
  ∀ sn ∈ r.historicalData, sn.date < r.date

/-- Date discipline of one TrackedItem record relative to the clock. -/
def itemDatesInv (clock : Nat) (r : TrackedItem) : Prop :=
  r.date < clock ∧
  (r.historicalData.map (fun sn => sn.date)).Pairwise (· < ·) ∧
  ∀ sn ∈ r.historicalData, sn.date < r.date

/-- Date discipline of every record in the store. -/
def storeDatesInv (clock : Nat) (s : Store) : Prop :=
  (∀ r ∈ s.trackedUsers, userDatesInv clock r) ∧
  (∀ r ∈ s.trackedItems, itemDatesInv clock r)

theorem userDatesInv_mono {c1 c2 : Nat} {r : TrackedUser} (h : c1 ≤ c2)
    (hr : userDatesInv c1 r) : userDatesInv c2 r :=
  ⟨Nat.lt_of_lt_of_le hr.1 h, hr.2.1, hr.2.2⟩

theorem itemDatesInv_mono {c1 c2 : Nat} {r : TrackedItem} (h : c1 ≤ c2)
    (hr : itemDatesInv c1 r) : itemDatesInv c2 r :=
  ⟨Nat.lt_of_lt_of_le hr.1 h, hr.2.1, hr.2.2⟩

theorem userDatesInv_rotate (clock : Nat) (old : Option TrackedUser)
    (u : String) (loc : Location)
    (hold : ∀ o, old = some o → userDatesInv clock o) :
    userDatesInv (clock + 1) (rotateUser old u loc clock) := by
  cases old with
  | none => exact ⟨Nat.lt_succ_self _, by simp [rotateUser], by simp [rotateUser]⟩
  | some o =>
    obtain ⟨hdate, hpair, hhist⟩ := hold o rfl
    refine ⟨Nat.lt_succ_self _, ?_, ?_⟩
    · simp only [rotateUser, List.map_append, List.map_cons, List.map_nil]
      rw [List.pairwise_append]
      refine ⟨hpair, List.pairwise_singleton _ _, ?_⟩
      intro x hx y hy
      simp only [List.mem_singleton] at hy
      subst hy
      simp only [List.mem_map] at hx
      obtain ⟨sn, hsn, rfl⟩ := hx
      exact hhist sn hsn
    · intro sn hsn
      simp only [rotateUser, List.mem_append, List.mem_singleton] at hsn
      rcases hsn with hsn | rfl
      · exact Nat.lt_trans (hhist sn hsn) hdate
      · exact hdate

theorem itemDatesInv_rotate (clock : Nat) (old : Option TrackedItem)
    (c n ds : String) (loc : Location)
    (hold : ∀ o, old = some o → itemDatesInv clock o) :
    itemDatesInv (clock + 1) (rotateItem old c n ds loc clock) := by
  cases old with
  | none => exact ⟨Nat.lt_succ_self _, by simp [rotateItem], by simp [rotateItem]⟩
  | some o =>
    obtain ⟨hdate, hpair, hhist⟩ := hold o rfl
    refine ⟨Nat.lt_succ_self _, ?_, ?_⟩
    · simp only [rotateItem, List.map_append, List.map_cons, List.map_nil]
      rw [List.pairwise_append]
      refine ⟨hpair, List.pairwise_singleton _ _, ?_⟩
      intro x hx y hy
      simp only [List.mem_singleton] at hy
      subst hy
      simp only [List.mem_map] at hx
      obtain ⟨sn, hsn, rfl⟩ := hx
      exact hhist sn hsn
    · intro sn hsn
      simp only [rotateItem, List.mem_append, List.mem_singleton] at hsn
      rcases hsn with hsn | rfl
      · exact Nat.lt_trans (hhist sn hsn) hdate
      · exact hdate

theorem storeDatesInv_runOp (clock : Nat) (s : Store) (op : Op)
    (h : storeDatesInv clock s) : storeDatesInv (clock + 1) (runOp s clock op) := by
  obtain ⟨hus, hit⟩ := h
  have husM : ∀ r ∈ s.trackedUsers, userDatesInv (clock + 1) r :=
    fun r hr => userDatesInv_mono (Nat.le_succ _) (hus r hr)
  have hitM : ∀ r ∈ s.trackedItems, itemDatesInv (clock + 1) r :=
    fun r hr => itemDatesInv_mono (Nat.le_succ _) (hit r hr)
  cases op with
  | putUser u loc =>
    by_cases hu : u ∈ s.users
    · constructor
      · intro r hr
        rw [runOp, putTrackedUser_of_mem s u loc clock hu] at hr
        rcases mem_upsertUserList hr with rfl | hr2
        · exact userDatesInv_rotate clock _ u loc
            (fun o ho => hus o (findTrackedUser_some_mem ho).1)
        · exact husM r hr2
      · intro r hr
        rw [runOp, putTrackedUser_trackedItems] at hr
        exact hitM r hr
    · have : runOp s clock (.putUser u loc) = s := by
        simp [runOp, putTrackedUser, hu]
      rw [this]
      exact ⟨husM, hitM⟩
  | putItem u c n ds loc =>
    by_cases hu : u ∈ s.users
    · constructor
      · intro r hr
        rw [runOp, putTrackedItem_trackedUsers] at hr
        exact husM r hr
      · intro r hr
        rw [runOp, putTrackedItem_of_mem s u c n ds loc clock hu] at hr
        rcases mem_upsertItemList hr with rfl | hr2
        · exact itemDatesInv_rotate clock _ c n ds loc
            (fun o ho => hit o (findTrackedItem_some_mem ho).1)
        · exact hitM r hr2
    · have : runOp s clock (.putItem u c n ds loc) = s := by
        simp [runOp, putTrackedItem, hu]
      rw [this]
      exact ⟨husM, hitM⟩
  | getUser u => exact ⟨husM, hitM⟩
  | getUsers => exact ⟨husM, hitM⟩
  | getItem c => exact ⟨husM, hitM⟩

theorem storeDatesInv_runOps (ops : List Op) :
    ∀ (clock : Nat) (s : Store), storeDatesInv clock s →
      storeDatesInv (clock + ops.length) (runOps s clock ops) := by
  induction ops with
  | nil => intro clock s h; simpa using h
  | cons op rest ih =>
    intro clock s h
    have h2 := ih (clock + 1) (runOp s clock op) (storeDatesInv_runOp clock s op h)
    rw [runOps]
    have harith : clock + (op :: rest).length = clock + 1 + rest.length := by
      simp [List.length_cons]
      omega
    rw [harith]
    exact h2

/-- C4: getTrackedUsers fails with statusCode 404 whenever the store
holds zero TrackedUser records, and after N distinct user identities
have been successfully tracked it returns a sequence of exactly N
TrackedUser records. -/
theorem getTrackedUsers_empty_and_count (s : Store) (ids : List String)
    (loc : Location) (d : Nat) :
    (s.trackedUsers = [] →
      getTrackedUsers s = .error notFoundErr ∧ notFoundErr.statusCode = 404) ∧
    (ids.Nodup → (∀ u ∈ ids, u ∈ s.users) → s.trackedUsers = [] → ids ≠ [] →
      ∃ l, getTrackedUsers (putAllUsers s ids loc d) = .ok l ∧
        l.length = ids.length) := by
  constructor
  · intro h
    exact ⟨by simp [getTrackedUsers, h], rfl⟩
  · intro hnd hin hempty hne
    have hfresh : ∀ u ∈ ids, findTrackedUser s u = none := by
      intro u hu
      rw [findTrackedUser_eq_none_iff, hempty]
      simp
    have hmap := putAllUsers_ids ids loc d s hnd hin hfresh
    rw [hempty] at hmap
    simp only [List.map_nil, List.nil_append] at hmap
    have hlen : (putAllUsers s ids loc d).trackedUsers.length = ids.length := by
      have := congrArg List.length hmap
      simpa using this
    have hnonempty : (putAllUsers s ids loc d).trackedUsers ≠ [] := by
      intro h0
      rw [h0] at hlen
      exact hne (List.length_eq_zero.mp hlen.symm)
    refine ⟨(putAllUsers s ids loc d).trackedUsers, ?_, hlen⟩
    simp [getTrackedUsers, hnonempty]

/-- Witness for C4: the empty store fails with 404, and tracking two
distinct identities yields a listing of exactly two records. -/
theorem getTrackedUsers_empty_and_count_witness :
    (getTrackedUsers store0 = .error notFoundErr ∧
      notFoundErr.statusCode = 404) ∧
    ∃ l, getTrackedUsers (putAllUsers ⟨[userU1, userU2], [], []⟩
        [userU1, userU2] locA 0) = .ok l ∧ l.length = 2 :=
  ⟨(getTrackedUsers_empty_and_count store0 [] locA 0).1 rfl,
   (getTrackedUsers_empty_and_count ⟨[userU1, userU2], [], []⟩
       [userU1, userU2] locA 0).2 (by decide)
     (by intro u hu; exact hu) rfl (by decide)⟩

/-- C7: starting from any store whose records respect the timestamp
discipline (in particular the empty store), after every sequence of
put and get operations no record's historicalData contains a snapshot
equal to the record's current location and date, and history dates are
strictly increasing, i.e. history holds only superseded prior states,
oldest first. -/
theorem history_never_contains_current (ops : List Op) (clock : Nat)
    (s : Store) (hinv : storeDatesInv clock s) :
    (∀ r ∈ (runOps s clock ops).trackedUsers,
      (⟨r.location, r.date⟩ : Snapshot) ∉ r.historicalData ∧
      (r.historicalData.map (fun sn => sn.date)).Pairwise (· < ·)) ∧
    (∀ r ∈ (runOps s clock ops).trackedItems,
      (⟨r.location, r.date⟩ : Snapshot) ∉ r.historicalData ∧
      (r.historicalData.map (fun sn => sn.date)).Pairwise (· < ·)) := by
  obtain ⟨hus, hit⟩ := storeDatesInv_runOps ops clock s hinv
  constructor
  · intro r hr
    obtain ⟨_, hpair, hhist⟩ := hus r hr
    exact ⟨fun hmem => absurd (hhist _ hmem) (Nat.lt_irrefl _), hpair⟩
  · intro r hr
    obtain ⟨_, hpair, hhist⟩ := hit r hr
    exact ⟨fun hmem => absurd (hhist _ hmem) (Nat.lt_irrefl _), hpair⟩

/-- Witness for C7: after two puts on the same user starting from the
demo store, the resulting record is exactly the expected one and its
current snapshot is not among its one history entry. -/
theorem history_never_contains_current_witness :
    ((⟨userU1, locB, 1, [⟨locA, 0⟩]⟩ : TrackedUser) ∈
        (runOps store0 0 [.putUser userU1 locA, .putUser userU1 locB]).trackedUsers) ∧
    ((⟨locB, 1⟩ : Snapshot) ∉
        (⟨userU1, locB, 1, [⟨locA, 0⟩]⟩ : TrackedUser).historicalData ∧
      ((⟨userU1, locB, 1, [⟨locA, 0⟩]⟩ : TrackedUser).historicalData.map
          (fun sn => sn.date)).Pairwise (· < ·)) :=
  ⟨by decide,
   (history_never_contains_current [.putUser userU1 locA, .putUser userU1 locB]
       0 store0 (by simp [storeDatesInv, store0])).1
     ⟨userU1, locB, 1, [⟨locA, 0⟩]⟩ (by decide)⟩

/-- C8: repeated puts on the same identity with an identical location do
not fail — every call in either iteration succeeds — and each call still
rotates the prior current state into history, so after k+1 identical
puts the history has exactly k entries; this holds for both kinds of
identity, a user reference via putTrackedUser and an item code via
putTrackedItem. -/
theorem repeated_put_rotates (s : Store) (u uc c n ds : String)
    (loc : Location) (d k : Nat) (hu : u ∈ s.users)
    (hfresh : findTrackedUser s u = none) (huc : uc ∈ s.users)
    (hifresh : findTrackedItem s c = none) :
    (∀ j, ∃ r, (putTrackedUser (putUserIter s u loc d j) u loc d).1 = .ok r) ∧
    (∃ r, findTrackedUser (putUserIter s u loc d (k + 1)) u = some r ∧
      r.historicalData.length = k ∧ r.location = loc) ∧
    (∀ j, ∃ r, (putTrackedItem (putItemIter s uc c n ds loc d j)
        uc c n ds loc d).1 = .ok r) ∧
    (∃ r, findTrackedItem (putItemIter s uc c n ds loc d (k + 1)) c = some r ∧
      r.historicalData.length = k ∧ r.location = loc) := by
  refine ⟨?_, ?_, ?_, ?_⟩
  · intro j
    have huj : u ∈ (putUserIter s u loc d j).users := by
      rw [putUserIter_users]; exact hu
    exact ⟨_, by rw [putTrackedUser_of_mem _ u loc d huj]⟩
  · have hfind1 := findTrackedUser_after_put s u loc d hu
    rw [hfresh] at hfind1
    have hu1 : u ∈ ((putTrackedUser s u loc d).2).users := by
      rw [putTrackedUser_users]; exact hu
    obtain ⟨r, hr, hlen, hzero, hpos⟩ :=
      putUserIter_find u loc d k (putTrackedUser s u loc d).2
        (rotateUser none u loc d) hu1 hfind1
    refine ⟨r, by rw [putUserIter]; exact hr, ?_, ?_⟩
    · rw [hlen]; simp [rotateUser]
    · cases Nat.eq_zero_or_pos k with
      | inl h0 =>
        subst h0
        rw [hzero rfl]
        rfl
      | inr hp => exact hpos hp
  · intro j
    have huj : uc ∈ (putItemIter s uc c n ds loc d j).users := by
      rw [putItemIter_users]; exact huc
    exact ⟨_, by rw [putTrackedItem_of_mem _ uc c n ds loc d huj]⟩
  · have hfind1 := findTrackedItem_after_put s uc c n ds loc d huc
    rw [hifresh] at hfind1
    have hu1 : uc ∈ ((putTrackedItem s uc c n ds loc d).2).users := by
      rw [putTrackedItem_users]; exact huc
    obtain ⟨r, hr, hlen, hzero, hpos⟩ :=
      putItemIter_find uc c n ds loc d k (putTrackedItem s uc c n ds loc d).2
        (rotateItem none c n ds loc d) hu1 hfind1
    refine ⟨r, by rw [putItemIter]; exact hr, ?_, ?_⟩
    · rw [hlen]; simp [rotateItem]
    · cases Nat.eq_zero_or_pos k with
      | inl h0 =>
        subst h0
        rw [hzero rfl]
        rfl
      | inr hp => exact hpos hp

/-- Witness for C8: three identical puts on the demo store — on the test
user identity and on the test item code — succeed and leave a history of
exactly two entries each. -/
theorem repeated_put_rotates_witness :
    (∃ r, (putTrackedUser (putUserIter store0 userU1 locA 5 0) userU1
        locA 5).1 = .ok r) ∧
    (∃ r, findTrackedUser (putUserIter store0 userU1 locA 5 3) userU1
        = some r ∧ r.historicalData.length = 2 ∧ r.location = locA) ∧
    (∃ r, (putTrackedItem (putItemIter store0 userU1 "12345678" "TestItem"
        "itemDescription" locA 5 0) userU1 "12345678" "TestItem"
        "itemDescription" locA 5).1 = .ok r) ∧
    (∃ r, findTrackedItem (putItemIter store0 userU1 "12345678" "TestItem"
        "itemDescription" locA 5 3) "12345678" = some r ∧
      r.historicalData.length = 2 ∧ r.location = locA) :=
  ⟨(repeated_put_rotates store0 userU1 userU1 "12345678" "TestItem"
      "itemDescription" locA 5 2 (by simp [store0]) rfl
      (by simp [store0]) rfl).1 0,
   (repeated_put_rotates store0 userU1 userU1 "12345678" "TestItem"
      "itemDescription" locA 5 2 (by simp [store0]) rfl
      (by simp [store0]) rfl).2.1,
   (repeated_put_rotates store0 userU1 userU1 "12345678" "TestItem"
      "itemDescription" locA 5 2 (by simp [store0]) rfl
      (by simp [store0]) rfl).2.2.1 0,
   (repeated_put_rotates store0 userU1 userU1 "12345678" "TestItem"
      "itemDescription" locA 5 2 (by simp [store0]) rfl
      (by simp [store0]) rfl).2.2.2⟩

/-- A concrete stand-in for `jwt.verify`: accepts the token `good`,
throws a `jwt malformed` error on anything else. -/
def demoVerify (t : String) : Except SvcError (Option DecodedToken) :=
  if t = "good" then .ok (some ⟨userU1⟩)
  else .error ⟨0, "jwt malformed"⟩

/-- C10: the middleware fails with 401 `Not Authenticated` when the
Authorization header is absent, with 401 `Invalid Format Token` when the
header carries no token after the first space, rethrows a rejection of
`jwt.verify` with statusCode 500 — not 401 — preserving its message, and
only on success continues with `req.userId` set from the decoded
token. -/
theorem verifyBimPlusToken_cases
    (verify : String → Except SvcError (Option DecodedToken)) (hdr : String) :
    (verifyBimPlusToken verify none = .thrown ⟨401, "Not Authenticated"⟩) ∧
    ((jsSplitOnSpace hdr).getD 1 "" = "" →
      verifyBimPlusToken verify (some hdr)
        = .thrown ⟨401, "Invalid Format Token"⟩) ∧
    (∀ tok e, (jsSplitOnSpace hdr).getD 1 "" = tok → tok ≠ "" →
      verify tok = .error e →
      verifyBimPlusToken verify (some hdr) = .thrown ⟨500, e.message⟩) ∧
    (∀ tok dec, (jsSplitOnSpace hdr).getD 1 "" = tok → tok ≠ "" →
      verify tok = .ok (some dec) →
      verifyBimPlusToken verify (some hdr) = .next dec._id) := by
  refine ⟨rfl, ?_, ?_, ?_⟩
  · intro h
    simp only [verifyBimPlusToken]
    rw [h]
    simp
  · intro tok e htok hne hv
    simp only [verifyBimPlusToken]
    rw [htok]
    simp [hne, hv]
  · intro tok dec htok hne hv
    simp only [verifyBimPlusToken]
    rw [htok]
    simp [hne, hv]

/-- Witness for C10: the four outcomes at concrete headers, with a
concrete verifier. -/
theorem verifyBimPlusToken_cases_witness :
    verifyBimPlusToken demoVerify none = .thrown ⟨401, "Not Authenticated"⟩ ∧
    verifyBimPlusToken demoVerify (some "Bearer")
      = .thrown ⟨401, "Invalid Format Token"⟩ ∧
    verifyBimPlusToken demoVerify (some "Bearer bad")
      = .thrown ⟨500, "jwt malformed"⟩ ∧
    verifyBimPlusToken demoVerify (some "Bearer good") = .next userU1 :=
  ⟨(verifyBimPlusToken_cases demoVerify "Bearer").1,
   (verifyBimPlusToken_cases demoVerify "Bearer").2.1 (by decide),
   (verifyBimPlusToken_cases demoVerify "Bearer bad").2.2.1 "bad"
     ⟨0, "jwt malformed"⟩ (by decide) (by decide) rfl,
   (verifyBimPlusToken_cases demoVerify "Bearer good").2.2.2 "good"
     ⟨userU1⟩ (by decide) (by decide) rfl⟩

end TrackingApp
